import Mathlib

/-!
Verification development for the soundwave audio-processing service.

The JavaScript source is shallowly embedded in Lean: JS numbers are
modelled as exact rationals, fallible async calls as `Except` values
supplied by an environment record, missing JS object keys as `Option`
fields, and the worker's job handler as a pure function from that
environment to a record of its outcome and observable side effects
(progress updates, webhook posts, file removals).

The repository carries several revisions of the same modules.  Suffix
conventions used below: definitions without a suffix (or with suffix A)
come from the revision of src/processors/audio-processor.js that takes an
options object, together with the worker revision in the same file that
builds on the AudioProcessor class; suffix W marks the inline worker
revision stored at src/workers/index.js; suffix C marks the other inline
worker revision; "Sized" marks the AudioProcessor revision whose
downloadFile checks the declared content length.
-/

namespace Soundwave

/-- JS `Math.max(...data)` for the non-empty lists this code applies it to.
The empty case (JS gives -Infinity) is only reached where the surrounding
code immediately maps over an empty list, so its value is irrelevant; we
pick 0. -/
def jsMax : List ℚ → ℚ
  | [] => 0
  | x :: xs => xs.foldl max x

/-- Running maximum `maxAmplitude` of the inline worker's waveform pass:
starts at 0 and folds `Math.max` over the pushed amplitudes. -/
def listMax0 (l : List ℚ) : ℚ := l.foldl max 0

/-- JS `Math.round`, kept inside ℚ: round half up to an integer. -/
def jsRound (x : ℚ) : ℚ := ((round x : ℤ) : ℚ)

/-- JS `Number(x.toFixed(4))` on the nonnegative averages the worker
produces: rounding to four decimal places. -/
def jsToFixed4 (x : ℚ) : ℚ := ((round (x * 10000) : ℤ) : ℚ) / 10000

/-- JS truthiness of an optional numeric field: absent and 0 are falsy. -/
def truthyQ : Option ℚ → Bool
  | none => false
  | some x => !(x == 0)

/-- `normalizeWaveform(data, points)` from src/processors/audio-processor.js:
divide every sample by the list maximum, then build an array of exactly
`points` entries by reading the normalized array at index
`Math.floor(i * step)` with `step = length / points`, substituting 0 when
the read yields a falsy value (out of range or a zero sample). -/
def normalizeWaveform (data : List ℚ) (points : Nat) : List ℚ :=
  let m := jsMax data
  let normalized := data.map (fun v => v / m)
  let step : ℚ := (normalized.length : ℚ) / (points : ℚ)
  (List.range points).map (fun (i : Nat) =>
    let idx := (⌊(i : ℚ) * step⌋).toNat
    normalized.getD idx 0)

/-- The chunking loop of the inline worker's waveform reduction
(src/workers/index.js): walk the list in strides of `step`, pushing the
4-decimal-rounded average of each chunk.  The JS loop advances the index
by `step`; with `step = 0` the JS loop would not terminate, but every
reachable call uses a ceiling of a division by a positive point count,
which is positive. -/
def chunkAverages (step : Nat) : List ℚ → List ℚ
  | [] => []
  | x :: xs =>
    let chunk := x :: xs.take (step - 1)
    jsToFixed4 (chunk.sum / (chunk.length : ℚ)) :: chunkAverages step (xs.drop (step - 1))
  termination_by l => l.length
  decreasing_by
    simp only [List.length_drop, List.length_cons]
    omega

/-- The inline worker's waveform post-processing (src/workers/index.js):
normalize the collected amplitudes against the running maximum, then
average contiguous windows of size `Math.ceil(n / points)`. -/
def reduceWaveformW (raw : List ℚ) (points : Nat) : List ℚ :=
  let normalizedPoints := raw.map (fun p => p / listMax0 raw)
  let step := (raw.length + points - 1) / points
  chunkAverages step normalizedPoints

/-- Quality switch of `AudioProcessor.processAudio`
(src/processors/audio-processor.js): the bitrate passed to
`audioBitrate`, or `none` when the switch falls through without setting
one. -/
def processorBitrate (quality : String) : Option String :=
  match quality with
  | "high" => some "320k"
  | "medium" => some "192k"
  | "low" => some "128k"
  | _ => none

/-- Quality switch of the inline worker revision (src/workers/index.js),
including its `default` arm. -/
def workerBitrate (quality : String) : String :=
  match quality with
  | "low" => "96k"
  | "medium" => "128k"
  | "high" => "256k"
  | _ => "128k"

/-- Parameters of one `afade` filter pair: start and length of the
fade-in, start and length of the fade-out, in seconds. -/
structure FadeFilter where
  fadeInStart : ℚ
  fadeInDur : ℚ
  fadeOutStart : ℚ
  fadeOutDur : ℚ
deriving DecidableEq

/-- Fade handling of `AudioProcessor.processAudio`
(src/processors/audio-processor.js): only inside the `if (duration)`
block (so a missing or zero duration yields no fades), with
`fadeLength = Math.min(3, duration * 0.1)`, fade-in from 0 and fade-out
starting at `duration - fadeLength`. -/
def fadeFiltersA (duration : Option ℚ) (fade : Bool) : Option FadeFilter :=
  match duration with
  | some d =>
    if d = 0 then none
    else if fade then
      let fadeLength := min 3 (d * (1 / 10))
      some ⟨0, fadeLength, d - fadeLength, fadeLength⟩
    else none
  | none => none

/-- Fade handling of the other inline worker revision (the block at
src/processors/audio-processor.js lines 397-402): whenever `output.fade`
is set it installs a fixed 1-second fade-in and a 1-second fade-out
starting at `output.duration - 1`.  When `duration` is absent the JS
arithmetic yields NaN, which has no rational counterpart, so that case is
mapped to `none`. -/
def fadeFiltersC (duration : Option ℚ) (fade : Bool) : Option FadeFilter :=
  if fade then
    match duration with
    | some d => some ⟨0, 1, d - 1, 1⟩
    | none => none
  else none

/-- Observable behavior of one HTTP fetch of the source file: transport
success flag and status text, the declared `content-length` header
(absent or unparsable modelled as `none`), and the size of the body that
would actually be streamed. -/
structure DownloadEnv where
  ok : Bool
  statusText : String
  contentLength : Option Nat
  bodySize : Nat
deriving DecidableEq

/-- `AudioProcessor.downloadFile` of the revision with the size check
(src/processors/audio-processor.js lines 214-228): reject a non-ok
response, then reject when the declared content length exceeds
`maxFileSize`; otherwise stream the body to disk.  The observed body
size is never examined. -/
def downloadFileSized (maxFileSize : Nat) (e : DownloadEnv) : Except String Unit :=
  if e.ok = false then Except.error ("Failed to download file: " ++ e.statusText)
  else
    match e.contentLength with
    | some cl =>
      if maxFileSize < cl then Except.error "File size exceeds maximum allowed size"
      else Except.ok ()
    | none => Except.ok ()

/-- `AudioProcessor.downloadFile` of the earlier revision
(src/processors/audio-processor.js lines 29-39): only the transport
status is checked. -/
def downloadFilePlain (e : DownloadEnv) : Except String Unit :=
  if e.ok = false then Except.error ("Failed to download file: " ++ e.statusText)
  else Except.ok ()

/-- `AudioProcessor.cleanup(files)`: iterate over the files in order and
unlink each one inside its own try/catch, logging and swallowing any
unlink error.  `u` is the behavior of `fs.promises.unlink`; the result
records, per file in iteration order, whether its unlink succeeded, and
the `Except` layer shows whether any error escapes the function. -/
def cleanup (u : String → Except String Unit) : List String → Except String (List (String × Bool))
  | [] => Except.ok []
  | f :: rest =>
    let attempt : Bool :=
      match u f with
      | Except.ok _ => true
      | Except.error _ => false
    match cleanup u rest with
    | Except.ok l => Except.ok ((f, attempt) :: l)
    | Except.error e => Except.error e

/-- The `notifications` object consumed by
`NotificationService.notify` (src/services/notifications.js). -/
structure NotificationConfig where
  webhook_url : Option String
  error_webhook_url : Option String
  slack_webhook_url : Option String
  progress_webhook_url : Option String
deriving DecidableEq

/-- `data.status` values distinguished by `NotificationService.notify`. -/
inductive Status
  | completed
  | failed
  | processing
deriving DecidableEq

/-- One dispatch performed by `NotificationService.notify`: a JSON
webhook carrying the full payload, or a Slack message. -/
inductive Delivery
  | webhook (url : String)
  | slack (url : String)
deriving DecidableEq

/-- `NotificationService.notify(notifications, data)`
(src/services/notifications.js lines 57-85), as the list of deliveries it
starts: completed payloads go to `webhook_url` and Slack, failed payloads
go to `error_webhook_url` and Slack, processing payloads go to
`progress_webhook_url`; any unset endpoint is simply skipped. -/
def notifyDeliveries (notifications : Option NotificationConfig) (status : Status) : List Delivery :=
  match notifications with
  | none => []
  | some n =>
    match status with
    | Status.completed =>
      (match n.webhook_url with
        | some u => [Delivery.webhook u]
        | none => []) ++
      (match n.slack_webhook_url with
        | some u => [Delivery.slack u]
        | none => [])
    | Status.failed =>
      (match n.error_webhook_url with
        | some u => [Delivery.webhook u]
        | none => []) ++
      (match n.slack_webhook_url with
        | some u => [Delivery.slack u]
        | none => [])
    | Status.processing =>
      match n.progress_webhook_url with
      | some u => [Delivery.webhook u]
      | none => []

/-- The JSON-webhook endpoints among `notifyDeliveries` (the Slack channel
carries a formatted text message, not the payload object). -/
def jsonWebhookTargets (notifications : Option NotificationConfig) (status : Status) : List String :=
  (notifyDeliveries notifications status).filterMap fun d =>
    match d with
    | Delivery.webhook u => some u
    | Delivery.slack _ => none

/-- One entry of `processingConfig.outputs` as the workers read it.  Only
the fields the job handlers consult are modelled; `duration` is the JS
`duration` / `durationSeconds` field, absent when the key is missing. -/
structure OutputSpec where
  format : String
  quality : String
  duration : Option ℚ
  fade : Bool
  path : Option String
  filename : Option String
deriving DecidableEq

/-- `processingConfig.storage` of a job. -/
structure StorageCfg where
  bucket : String
  path : Option String
deriving DecidableEq

/-- The fields of `job.data` consumed by the worker revision built on
`AudioProcessor` (the handler at src/processors/audio-processor.js lines
570-699).  `waveformPoints` is `processingConfig.waveform.points` when a
waveform object is configured. -/
structure JobData where
  internal_id : Option String
  outputs : List OutputSpec
  storage : StorageCfg
  waveformPoints : Option Nat
  webhook_url : Option String
  metadata : List (String × String)
deriving DecidableEq

/-- Environment of one run of that handler: configuration constants, the
behavior of each fallible external call (download, per-output transcode
and upload, the waveform extraction's raw `mean_volume` samples) and the
generator behind `uuidv4()`. -/
structure Env where
  tempDir : String
  endpoint : String
  download : Except String Unit
  transcode : Nat → Except String String
  upload : Nat → Except String Unit
  genName : Nat → String
  wave : Except String (List ℚ)

/-- One result entry pushed by that handler: url, key, filename, format,
quality, the spec's duration, and the derived `type` string. -/
structure Output where
  url : String
  key : String
  filename : String
  format : String
  quality : String
  duration : Option ℚ
  type : String
deriving DecidableEq

/-- The completed-job response object of that handler. -/
structure Response where
  job_id : String
  internal_id : Option String
  status : String
  outputs : List Output
  waveform : Option (List ℚ)
  metadata : List (String × String)
deriving DecidableEq

/-- Body of a webhook POST made by that handler.  The failed payload
constructor mirrors the JS object literal, which carries no outputs
field. -/
inductive Payload
  | completed (job_id : String) (internal_id : Option String) (outputs : List Output)
      (waveform : Option (List ℚ)) (metadata : List (String × String))
  | failed (job_id : String) (internal_id : Option String) (error : String)
      (metadata : List (String × String))
deriving DecidableEq

/-- Decidable equality for `Except`, used to evaluate concrete run
outcomes. -/
instance {ε α : Type} [DecidableEq ε] [DecidableEq α] : DecidableEq (Except ε α)
  | Except.ok x, Except.ok y =>
    decidable_of_iff (x = y) ⟨fun h => by rw [h], fun h => by injection h⟩
  | Except.error x, Except.error y =>
    decidable_of_iff (x = y) ⟨fun h => by rw [h], fun h => by injection h⟩
  | Except.ok _, Except.error _ => isFalse fun h => Except.noConfusion h
  | Except.error _, Except.ok _ => isFalse fun h => Except.noConfusion h

/-- Outcome of one run of that handler: the returned response or rethrown
error, the `job.updateProgress` values in call order, the webhook POSTs
attempted, and the file list handed to `processor.cleanup` in the
`finally` block. -/
structure RunResult where
  outcome : Except String Response
  progress : List ℚ
  posts : List (String × Payload)
  cleaned : List String
deriving DecidableEq

/-- The result entry built at src/processors/audio-processor.js lines
611-619: storage path falls back from the spec to the job to "audio",
the filename falls back to a generated unique name, the key joins the
two, the url is the one `uploadToStorage` returns, and `type` is
"preview" exactly when the spec's duration is truthy. -/
def mkOutputEntry (env : Env) (d : JobData) (i : Nat) (spec : OutputSpec) : Output :=
  let storagePath := spec.path.getD (d.storage.path.getD "audio")
  let filename := spec.filename.getD (env.genName i ++ "." ++ spec.format)
  let key := storagePath ++ "/" ++ filename
  { url := "https://" ++ d.storage.bucket ++ "." ++ env.endpoint ++ "/" ++ key
    key := key
    filename := filename
    format := spec.format
    quality := spec.quality
    duration := spec.duration
    type := if truthyQ spec.duration then "preview" else "full" }

/-- The per-output loop of that handler, indexed from `i`: transcode,
push the produced file onto the cleanup list, upload, append the result
entry.  Returns the loop's outcome (the entries, or the first error) and
the produced intermediate files in push order. -/
def processLoop (env : Env) (d : JobData) : Nat → List OutputSpec → Except String (List Output) × List String
  | _, [] => (Except.ok [], [])
  | i, spec :: rest =>
    match env.transcode i with
    | Except.error e => (Except.error e, [])
    | Except.ok file =>
      match env.upload i with
      | Except.error e => (Except.error e, [file])
      | Except.ok _ =>
        let entry := mkOutputEntry env d i spec
        let r := processLoop env d (i + 1) rest
        (r.1.map (fun outs => entry :: outs), file :: r.2)

/-- The failure webhook attempt of that handler's catch block: one POST
to `webhook_url` when it is set, carrying job id, internal id, status
"failed", the error message and the metadata. -/
def failPosts (d : JobData) (jobId e : String) : List (String × Payload) :=
  match d.webhook_url with
  | some u => [(u, Payload.failed jobId d.internal_id e d.metadata)]
  | none => []

/-- The completion webhook attempt: one POST of the response to
`webhook_url` when it is set. -/
def successPosts (d : JobData) (resp : Response) : List (String × Payload) :=
  match d.webhook_url with
  | some u => [(u, Payload.completed resp.job_id resp.internal_id resp.outputs resp.waveform resp.metadata)]
  | none => []

/-- The completed response object of that handler. -/
def mkResponse (jobId : String) (d : JobData) (outs : List Output) (wf : Option (List ℚ)) : Response :=
  { job_id := jobId
    internal_id := d.internal_id
    status := "completed"
    outputs := outs
    waveform := wf
    metadata := d.metadata }

/-- The temp path `downloadFile` writes the source to:
`path.join(tempDir, jobId + "-source")`. -/
def srcPath (jobId : String) (env : Env) : String :=
  env.tempDir ++ "/" ++ jobId ++ "-source"

/-- The job handler of the worker revision built on `AudioProcessor`
(src/processors/audio-processor.js lines 570-699): progress 10, download
(its result file lives at tempDir/jobId-source), progress 20, the
per-output loop, progress 80 plus waveform extraction when configured
(`generateWaveform` = `normalizeWaveform` over the raw samples), progress
100, completion webhook; any thrown error instead triggers the failure
webhook and is rethrown; in every case the `finally` block passes the
downloaded source and all produced intermediates to `cleanup`. -/
def runJob (jobId : String) (d : JobData) (env : Env) : RunResult :=
  match env.download with
  | Except.error e =>
    { outcome := Except.error e
      progress := [10]
      posts := failPosts d jobId e
      cleaned := [] }
  | Except.ok _ =>
    match (processLoop env d 0 d.outputs).1 with
    | Except.error e =>
      { outcome := Except.error e
        progress := [10, 20]
        posts := failPosts d jobId e
        cleaned := srcPath jobId env :: (processLoop env d 0 d.outputs).2 }
    | Except.ok outs =>
      match d.waveformPoints with
      | none =>
        { outcome := Except.ok (mkResponse jobId d outs none)
          progress := [10, 20, 100]
          posts := successPosts d (mkResponse jobId d outs none)
          cleaned := srcPath jobId env :: (processLoop env d 0 d.outputs).2 }
      | some pts =>
        match env.wave with
        | Except.error e =>
          { outcome := Except.error e
            progress := [10, 20, 80]
            posts := failPosts d jobId e
            cleaned := srcPath jobId env :: (processLoop env d 0 d.outputs).2 }
        | Except.ok raw =>
          { outcome := Except.ok (mkResponse jobId d outs (some (normalizeWaveform raw pts)))
            progress := [10, 20, 80, 100]
            posts := successPosts d (mkResponse jobId d outs (some (normalizeWaveform raw pts)))
            cleaned := srcPath jobId env :: (processLoop env d 0 d.outputs).2 }

/-- One result entry of the inline worker revision
(src/workers/index.js lines 120-126): url, format, the probed duration
and size, and the quality.  The JS object literal has no `type` key;
reading `.type` on it yields `undefined`, modelled as the `Option` field
being `none`. -/
structure OutputW where
  url : String
  format : String
  duration : ℚ
  size : ℚ
  quality : String
  type : Option String
deriving DecidableEq

/-- The result entry constructor of that revision. -/
def mkOutputW (url : String) (spec : OutputSpec) (probedDuration probedSize : ℚ) : OutputW :=
  { url := url
    format := spec.format
    duration := probedDuration
    size := probedSize
    quality := spec.quality
    type := none }

/-- The waveform object of that revision: the reduced data and its
length. -/
structure WaveformW where
  data : List ℚ
  points : Nat
deriving DecidableEq

/-- The progress value computed inside the ffmpeg progress handler of
that revision (src/workers/index.js lines 83-88), for output index `i`
of `k` outputs and an ffmpeg-reported `percent`:
`Math.min(80, Math.round(20 + i*(60/k) + (percent/100)*(60/k)))`. -/
def progressW (k i : Nat) (percent : ℚ) : ℚ :=
  min 80 (jsRound (20 + (i : ℚ) * (60 / (k : ℚ)) + (percent / 100) * (60 / (k : ℚ))))

/-- Fields of `job.data` the inline worker revision consumes.
`waveformPoints` is `some p` when a waveform object with `points: p` is
configured (the code substitutes 1000 for a falsy value). -/
structure JobW where
  outputs : List OutputSpec
  bucket : String
  storagePath : String
  waveformPoints : Option Nat
deriving DecidableEq

/-- Environment of one run of the inline worker revision:
`percentStreams i` is the sequence of `progress.percent` values ffmpeg
reports while transcoding output `i`; the `Except` fields give the
outcomes of the transcode, ffprobe (duration and size) and upload calls;
`waveRaw` is the amplitude sequence collected during the waveform pass. -/
structure EnvW where
  workDir : String
  endpointW : String
  downloadW : Except String Unit
  percentStreams : Nat → List ℚ
  transcodeW : Nat → Except String Unit
  probeW : Nat → Except String (ℚ × ℚ)
  uploadW : Nat → Except String Unit
  genW : Nat → String
  waveRaw : Except String (List ℚ)

/-- Outcome of one run of the inline worker revision: the returned value
or rethrown error, the progress updates in order, and the unlink targets
in call order (the code also calls an unimported `rmdir` inside
try/catch blocks, whose ReferenceError is swallowed; it removes
nothing). -/
structure RunResultW where
  outcome : Except String (List OutputW × Option WaveformW)
  progress : List ℚ
  removed : List String
deriving DecidableEq

/-- The per-output loop of the inline worker revision, indexed from `i`
with `k` total outputs: emit the ffmpeg progress values, then transcode,
probe, upload, push the entry and eagerly unlink the produced file.
Returns the loop outcome, the emitted progress values, and the unlink
targets. -/
def loopW (env : EnvW) (j : JobW) (k : Nat) : Nat → List OutputSpec →
    Except String (List OutputW) × List ℚ × List String
  | _, [] => (Except.ok [], [], [])
  | i, spec :: rest =>
    let prog := (env.percentStreams i).map (progressW k i)
    match env.transcodeW i with
    | Except.error e => (Except.error e, prog, [])
    | Except.ok _ =>
      match env.probeW i with
      | Except.error e => (Except.error e, prog, [])
      | Except.ok ds =>
        match env.uploadW i with
        | Except.error e => (Except.error e, prog, [])
        | Except.ok _ =>
          let key := j.storagePath ++ "/" ++ env.genW i ++ "." ++ spec.format
          let url := "https://" ++ j.bucket ++ "." ++ env.endpointW ++ "/" ++ key
          let entry := mkOutputW url spec ds.1 ds.2
          let outputPath := env.workDir ++ "/output." ++ spec.format
          let r := loopW env j k (i + 1) rest
          (r.1.map (fun outs => entry :: outs), prog ++ r.2.1, outputPath :: r.2.2)

/-- The job handler of the inline worker revision (src/workers/index.js
lines 22-208): progress 10, download into workDir/input.audio, progress
20, the per-output loop with its ffmpeg progress handler and eager
per-output unlink, the optional waveform pass, unlink of the input and
progress 100 on success; the catch block attempts to unlink the input
and rethrows. -/
def runJobW (env : EnvW) (j : JobW) : RunResultW :=
  match env.downloadW with
  | Except.error e =>
    { outcome := Except.error e
      progress := [10]
      removed := [env.workDir ++ "/input.audio"] }
  | Except.ok _ =>
    match (loopW env j j.outputs.length 0 j.outputs).1 with
    | Except.error e =>
      { outcome := Except.error e
        progress := [10, 20] ++ (loopW env j j.outputs.length 0 j.outputs).2.1
        removed := (loopW env j j.outputs.length 0 j.outputs).2.2 ++ [env.workDir ++ "/input.audio"] }
    | Except.ok outs =>
      match j.waveformPoints with
      | none =>
        { outcome := Except.ok (outs, none)
          progress := [10, 20] ++ (loopW env j j.outputs.length 0 j.outputs).2.1 ++ [100]
          removed := (loopW env j j.outputs.length 0 j.outputs).2.2 ++ [env.workDir ++ "/input.audio"] }
      | some pts =>
        match env.waveRaw with
        | Except.error e =>
          { outcome := Except.error e
            progress := [10, 20] ++ (loopW env j j.outputs.length 0 j.outputs).2.1
            removed := (loopW env j j.outputs.length 0 j.outputs).2.2 ++ [env.workDir ++ "/input.audio"] }
        | Except.ok raw =>
          { outcome := Except.ok (outs, some
              { data := reduceWaveformW raw (if pts = 0 then 1000 else pts)
                points := (reduceWaveformW raw (if pts = 0 then 1000 else pts)).length })
            progress := [10, 20] ++ (loopW env j j.outputs.length 0 j.outputs).2.1 ++ [100]
            removed := (loopW env j j.outputs.length 0 j.outputs).2.2 ++ [env.workDir ++ "/input.audio"] }

/-- A full-rendition output spec used in concrete runs. -/
def specFullMp3 : OutputSpec :=
  { format := "mp3", quality := "high", duration := none, fade := false
    path := none, filename := none }

/-- A preview output spec (duration set) used in concrete runs. -/
def specPrevOgg : OutputSpec :=
  { format := "ogg", quality := "low", duration := some 20, fade := true
    path := none, filename := some "p.ogg" }

/-- A two-output job consumed by the AudioProcessor-based worker in
concrete runs. -/
def jobDataDemo : JobData :=
  { internal_id := some "int-1"
    outputs := [specFullMp3, specPrevOgg]
    storage := { bucket := "b", path := some "p" }
    waveformPoints := none
    webhook_url := some "https://hook.example/done"
    metadata := [("k", "v")] }

/-- An environment in which every external call succeeds. -/
def envOk : Env :=
  { tempDir := "/tmp"
    endpoint := "nyc3.digitaloceanspaces.com"
    download := Except.ok ()
    transcode := fun i => Except.ok (match i with
      | 0 => "/tmp/out0"
      | 1 => "/tmp/out1"
      | _ => "/tmp/outN")
    upload := fun _ => Except.ok ()
    genName := fun _ => "gen"
    wave := Except.ok [] }

/-- The all-success environment with the download failing instead. -/
def envDlFail : Env :=
  { envOk with download := Except.error "Failed to download file: Not Found" }

/-- A three-output job for the forced-failure scenario. -/
def jobDataTri : JobData :=
  { jobDataDemo with outputs := [specFullMp3, specPrevOgg, specFullMp3] }

/-- The all-success environment with the transcode of the second output
(index 1) failing. -/
def envTrFail : Env :=
  { envOk with transcode := fun i =>
      match i with
      | 0 => Except.ok "/tmp/out0"
      | 1 => Except.error "TranscodeError: boom"
      | _ => Except.ok "/tmp/outN" }

/-- A notification config with a completion webhook but no dedicated
error webhook. -/
def noErrHookCfg : NotificationConfig :=
  { webhook_url := some "https://hook.example/done"
    error_webhook_url := none
    slack_webhook_url := none
    progress_webhook_url := none }

/-- A one-output job for the inline worker revision. -/
def jobWUp : JobW :=
  { outputs := [specFullMp3], bucket := "b", storagePath := "p", waveformPoints := none }

/-- Inline-worker environment in which the transcode and probe succeed
but the upload fails. -/
def envWUp : EnvW :=
  { workDir := "/tmp/wd"
    endpointW := "nyc3.digitaloceanspaces.com"
    downloadW := Except.ok ()
    percentStreams := fun _ => []
    transcodeW := fun _ => Except.ok ()
    probeW := fun _ => Except.ok (2, 3)
    uploadW := fun _ => Except.error "UploadError: denied"
    genW := fun _ => "u"
    waveRaw := Except.ok [] }

/-- A two-output job for the inline worker revision. -/
def jobWOk : JobW :=
  { outputs := [specFullMp3, specPrevOgg], bucket := "b", storagePath := "p"
    waveformPoints := none }

/-- Inline-worker environment in which every call succeeds and ffmpeg
reports an increasing percent stream for each output. -/
def envWOk : EnvW :=
  { envWUp with
    uploadW := fun _ => Except.ok ()
    percentStreams := fun _ => [0, 50, 100] }

/-- The result entries the all-success inline worker run produces for
the two-output job. -/
def outsWDemo : List OutputW :=
  [mkOutputW "https://b.nyc3.digitaloceanspaces.com/p/u.mp3" specFullMp3 2 3,
   mkOutputW "https://b.nyc3.digitaloceanspaces.com/p/u.ogg" specPrevOgg 2 3]

/-- The response the all-success environment produces for the demo job. -/
def respDemo : Response :=
  mkResponse "j1" jobDataDemo
    [mkOutputEntry envOk jobDataDemo 0 specFullMp3,
     mkOutputEntry envOk jobDataDemo 1 specPrevOgg] none

/-! Scenario equations for `runJob`, one per exit path. -/

theorem runJob_dl_err (jobId : String) (d : JobData) (env : Env) (e : String)
    (h : env.download = Except.error e) :
    runJob jobId d env = ⟨Except.error e, [10], failPosts d jobId e, []⟩ := by
  simp [runJob, h]

theorem runJob_loop_err (jobId : String) (d : JobData) (env : Env) (e : String) (u : Unit)
    (h1 : env.download = Except.ok u)
    (h2 : (processLoop env d 0 d.outputs).1 = Except.error e) :
    runJob jobId d env = ⟨Except.error e, [10, 20], failPosts d jobId e,
      srcPath jobId env :: (processLoop env d 0 d.outputs).2⟩ := by
  simp [runJob, h1, h2]

theorem runJob_ok_nowave (jobId : String) (d : JobData) (env : Env) (outs : List Output)
    (u : Unit) (h1 : env.download = Except.ok u)
    (h2 : (processLoop env d 0 d.outputs).1 = Except.ok outs)
    (h3 : d.waveformPoints = none) :
    runJob jobId d env = ⟨Except.ok (mkResponse jobId d outs none), [10, 20, 100],
      successPosts d (mkResponse jobId d outs none),
      srcPath jobId env :: (processLoop env d 0 d.outputs).2⟩ := by
  simp [runJob, h1, h2, h3]

theorem runJob_wave_err (jobId : String) (d : JobData) (env : Env) (outs : List Output)
    (pts : Nat) (e : String) (u : Unit) (h1 : env.download = Except.ok u)
    (h2 : (processLoop env d 0 d.outputs).1 = Except.ok outs)
    (h3 : d.waveformPoints = some pts) (h4 : env.wave = Except.error e) :
    runJob jobId d env = ⟨Except.error e, [10, 20, 80], failPosts d jobId e,
      srcPath jobId env :: (processLoop env d 0 d.outputs).2⟩ := by
  simp [runJob, h1, h2, h3, h4]

theorem runJob_ok_wave (jobId : String) (d : JobData) (env : Env) (outs : List Output)
    (pts : Nat) (raw : List ℚ) (u : Unit) (h1 : env.download = Except.ok u)
    (h2 : (processLoop env d 0 d.outputs).1 = Except.ok outs)
    (h3 : d.waveformPoints = some pts) (h4 : env.wave = Except.ok raw) :
    runJob jobId d env = ⟨Except.ok (mkResponse jobId d outs (some (normalizeWaveform raw pts))),
      [10, 20, 80, 100],
      successPosts d (mkResponse jobId d outs (some (normalizeWaveform raw pts))),
      srcPath jobId env :: (processLoop env d 0 d.outputs).2⟩ := by
  simp [runJob, h1, h2, h3, h4]

/-- C4: the claim maps low to 128k, medium to 192k and high to 320k for
every output.  `AudioProcessor.processAudio` does use that ladder, but
the inline worker revision uses 96k/128k/256k, so the claim as stated is
false there: low yields 96k, not 128k. -/
theorem C4_counterexample :
    workerBitrate "low" = "96k" ∧ workerBitrate "low" ≠ "128k" := by decide

/-- C4 (amended): `AudioProcessor.processAudio` maps low, medium and high
to 128k, 192k and 320k; the inline worker revision maps them to 96k,
128k and 256k. -/
theorem C4_amended :
    processorBitrate "low" = some "128k" ∧
    processorBitrate "medium" = some "192k" ∧
    processorBitrate "high" = some "320k" ∧
    workerBitrate "low" = "96k" ∧
    workerBitrate "medium" = "128k" ∧
    workerBitrate "high" = "256k" := by decide

/-- C7: the claim makes the download fail whenever the observed size of
the fetched body exceeds the maximum, but `downloadFile` only inspects
the declared content-length header: with the header absent, a body
larger than the maximum (here 101 bytes against a 100-byte limit)
streams through successfully in both revisions. -/
theorem C7_counterexample :
    downloadFileSized 100 ⟨true, "OK", none, 101⟩ = Except.ok () ∧
    downloadFilePlain ⟨true, "OK", none, 101⟩ = Except.ok () ∧
    100 < (DownloadEnv.mk true "OK" none 101).bodySize := by decide

/-- C7 (amended): the revision with the size check fails exactly when the
transport reports a non-success status or the declared content-length
exceeds the configured maximum (the observed body size is never
checked); the earlier revision fails exactly on a non-success status. -/
theorem C7_amended (maxFileSize : Nat) (e : DownloadEnv) :
    ((downloadFileSized maxFileSize e).isOk = false ↔
      (e.ok = false ∨ ∃ cl, e.contentLength = some cl ∧ maxFileSize < cl)) ∧
    ((downloadFilePlain e).isOk = false ↔ e.ok = false) := by
  obtain ⟨ok, st, cl, bs⟩ := e
  constructor
  · cases ok with
    | false => simp [downloadFileSized, Except.isOk, Except.toBool]
    | true =>
      cases cl with
      | none => simp [downloadFileSized, Except.isOk, Except.toBool]
      | some c =>
        by_cases h : maxFileSize < c <;>
          simp [downloadFileSized, Except.isOk, Except.toBool, h]
  · cases ok <;> simp [downloadFilePlain, Except.isOk, Except.toBool]

/-- C7 (witness): a concrete non-success response is rejected. -/
theorem C7_witness :
    (downloadFileSized 300000000 ⟨false, "Service Unavailable", none, 0⟩).isOk = false :=
  (C7_amended 300000000 ⟨false, "Service Unavailable", none, 0⟩).1.mpr (Or.inl rfl)

/-- C9: the claim requires fades of exactly min(3s, 10% of duration); for
a 20-second preview that is 2 seconds, but the inline worker revision
installs fixed 1-second fades. -/
theorem C9_counterexample :
    fadeFiltersC (some 20) true = some ⟨0, 1, 19, 1⟩ ∧
    min (3 : ℚ) (20 * (1 / 10)) = 2 ∧
    (1 : ℚ) ≠ 2 := by
  refine ⟨?_, ?_, by norm_num⟩
  · simp only [fadeFiltersC, if_true]
    norm_num
  · have h2 : (20 : ℚ) * (1 / 10) = 2 := by norm_num
    rw [h2, min_eq_right (by norm_num : (2 : ℚ) ≤ 3)]

/-- C9 (amended): in the AudioProcessor revision, with fade set and a
nonzero duration present, fade-in and fade-out each last exactly
min(3, duration/10) and the fade-out ends exactly at the duration; the
inline worker revision instead installs fixed 1-second fades (fade-out
starting at duration-1) whenever fade is set. -/
theorem C9_amended (d : ℚ) (hd : d ≠ 0) :
    fadeFiltersA (some d) true =
      some ⟨0, min 3 (d * (1 / 10)), d - min 3 (d * (1 / 10)), min 3 (d * (1 / 10))⟩ ∧
    (∀ f : FadeFilter, fadeFiltersA (some d) true = some f →
      f.fadeOutStart + f.fadeOutDur = d ∧ f.fadeInDur = f.fadeOutDur) ∧
    (∀ d' : ℚ, ∀ fd : Bool,
      fadeFiltersC (some d') fd = if fd then some ⟨0, 1, d' - 1, 1⟩ else none) := by
  refine ⟨by simp [fadeFiltersA, hd], ?_, ?_⟩
  · intro f hf
    simp only [fadeFiltersA, hd, if_false, if_true, Option.some.injEq] at hf
    subst hf
    constructor
    · ring
    · rfl
  · intro d' fd
    cases fd <;> simp [fadeFiltersC]

/-- C9 (witness): for a 20-second preview the fades last 2 seconds each
and the fade-out spans seconds 18 to 20. -/
theorem C9_witness : fadeFiltersA (some 20) true = some ⟨0, 2, 18, 2⟩ := by
  have hmin : min (3 : ℚ) (20 * (1 / 10)) = 2 := by
    have h2 : (20 : ℚ) * (1 / 10) = 2 := by norm_num
    rw [h2, min_eq_right (by norm_num : (2 : ℚ) ≤ 3)]
  have h := (C9_amended 20 (by norm_num)).1
  rw [hmin] at h
  rw [h]
  norm_num

/-- C10: `AudioProcessor.cleanup` attempts to unlink every listed file in
order, swallowing each unlink failure, so no error escapes and a failed
deletion never prevents the remaining attempts: for every unlink
behavior the function returns normally with one attempt per input file,
in input order. -/
theorem C10_cleanup (u : String → Except String Unit) (files : List String) :
    ∃ l, cleanup u files = Except.ok l ∧ l.map Prod.fst = files := by
  induction files with
  | nil => exact ⟨[], rfl, rfl⟩
  | cons f rest ih =>
    obtain ⟨l, hl, hmap⟩ := ih
    refine ⟨(f, match u f with | Except.ok _ => true | Except.error _ => false) :: l, ?_, ?_⟩
    · simp [cleanup, hl]
    · simp [hmap]

/-! Structure of the per-output loop's results. -/

theorem processLoop_ok (env : Env) (d : JobData) :
    ∀ (specs : List OutputSpec) (i : Nat) (outs : List Output),
      (processLoop env d i specs).1 = Except.ok outs →
      outs.length = specs.length ∧
      ∀ (j : Nat) (hj : j < specs.length) (hj' : j < outs.length),
        outs[j] = mkOutputEntry env d (i + j) specs[j] := by
  intro specs
  induction specs with
  | nil =>
    intro i outs h
    simp only [processLoop] at h
    cases h
    exact ⟨rfl, fun j hj _ => absurd hj (by simp)⟩
  | cons spec rest ih =>
    intro i outs h
    rcases ht : env.transcode i with e | file
    · simp [processLoop, ht] at h
    · rcases hu : env.upload i with e | uu
      · simp [processLoop, ht, hu] at h
      · simp only [processLoop, ht, hu] at h
        rcases hr : (processLoop env d (i + 1) rest).1 with e | outs'
        · rw [hr] at h
          simp [Except.map] at h
        · rw [hr] at h
          simp only [Except.map, Except.ok.injEq] at h
          subst h
          obtain ⟨hlen, hidx⟩ := ih (i + 1) outs' hr
          refine ⟨by simp [hlen], ?_⟩
          intro j hj hj'
          cases j with
          | zero => simp [Nat.add_zero]
          | succ jj =>
            have hjr : jj < rest.length := by
              simpa using hj
            have hjr' : jj < outs'.length := by
              omega
            have := hidx jj hjr hjr'
            simp only [List.getElem_cons_succ]
            rw [this]
            have harith : i + 1 + jj = i + (jj + 1) := by omega
            rw [harith]

theorem processLoop_produced (env : Env) (d : JobData) :
    ∀ (specs : List OutputSpec) (i : Nat) (f : String),
      f ∈ (processLoop env d i specs).2 → ∃ i', env.transcode i' = Except.ok f := by
  intro specs
  induction specs with
  | nil =>
    intro i f hf
    simp [processLoop] at hf
  | cons spec rest ih =>
    intro i f hf
    rcases ht : env.transcode i with e | file
    · simp [processLoop, ht] at hf
    · rcases hu : env.upload i with e | uu
      · simp [processLoop, ht, hu] at hf
        subst hf
        exact ⟨i, ht⟩
      · simp only [processLoop, ht, hu, List.mem_cons] at hf
        rcases hf with rfl | hf
        · exact ⟨i, ht⟩
        · exact ih (i + 1) f hf

/-- When the run returns a response, its outputs are exactly the loop's
entries. -/
theorem runJob_ok_outputs (jobId : String) (d : JobData) (env : Env) (resp : Response)
    (h : (runJob jobId d env).outcome = Except.ok resp) :
    (processLoop env d 0 d.outputs).1 = Except.ok resp.outputs := by
  rcases hdl : env.download with e | u
  · rw [runJob_dl_err jobId d env e hdl] at h
    simp at h
  · rcases hpl : (processLoop env d 0 d.outputs).1 with e | outs
    · rw [runJob_loop_err jobId d env e u hdl hpl] at h
      simp at h
    · rcases hwp : d.waveformPoints with _ | pts
      · rw [runJob_ok_nowave jobId d env outs u hdl hpl hwp] at h
        simp only [Except.ok.injEq] at h
        rw [← h]
        rfl
      · rcases hwv : env.wave with e | raw
        · rw [runJob_wave_err jobId d env outs pts e u hdl hpl hwp hwv] at h
          simp at h
        · rw [runJob_ok_wave jobId d env outs pts raw u hdl hpl hwp hwv] at h
          simp only [Except.ok.injEq] at h
          rw [← h]
          rfl

/-- C6: the claim says every result entry has a type field that is
"preview" iff the spec's duration was set.  The inline worker revision
builds its result entries without any type field at all, so an entry for
a spec with duration 20 has no "preview" type. -/
theorem C6_counterexample :
    (mkOutputW "https://b.nyc3.digitaloceanspaces.com/p/u.ogg" specPrevOgg 20 512).type = none ∧
    specPrevOgg.duration = some 20 := ⟨rfl, rfl⟩

/-- C6 (amended): in the AudioProcessor-based worker every result
entry's type is "preview" exactly when its spec's duration is set and
nonzero, and "full" otherwise; the inline worker revision's entries
carry no type field. -/
theorem C6_type (jobId : String) (d : JobData) (env : Env) (resp : Response)
    (h : (runJob jobId d env).outcome = Except.ok resp) :
    (∀ (j : Nat) (hj : j < d.outputs.length) (hj' : j < resp.outputs.length),
      ((resp.outputs[j]).type = "preview" ↔ truthyQ ((d.outputs[j]).duration) = true) ∧
      (truthyQ ((d.outputs[j]).duration) = false → (resp.outputs[j]).type = "full")) ∧
    (∀ (url : String) (spec : OutputSpec) (pd ps : ℚ),
      (mkOutputW url spec pd ps).type = none) := by
  have hpl := runJob_ok_outputs jobId d env resp h
  obtain ⟨hlen, hidx⟩ := processLoop_ok env d d.outputs 0 resp.outputs hpl
  constructor
  · intro j hj hj'
    rw [hidx j hj hj']
    cases htr : truthyQ ((d.outputs[j]).duration) <;>
      simp [mkOutputEntry, htr]
  · intro url spec pd ps
    rfl

/-- C6 (witness): for the demo job the full-rendition spec yields type
"full" and the preview spec yields type "preview". -/
theorem C6_witness :
    (∀ (j : Nat) (hj : j < jobDataDemo.outputs.length) (hj' : j < respDemo.outputs.length),
      ((respDemo.outputs[j]).type = "preview" ↔ truthyQ ((jobDataDemo.outputs[j]).duration) = true) ∧
      (truthyQ ((jobDataDemo.outputs[j]).duration) = false → (respDemo.outputs[j]).type = "full")) ∧
    (∀ (url : String) (spec : OutputSpec) (pd ps : ℚ),
      (mkOutputW url spec pd ps).type = none) :=
  C6_type "j1" jobDataDemo envOk respDemo (by rfl)

/-- C2: the claim routes a failure notification to errorWebhookURL when
configured and otherwise to webhookURL.  `NotificationService.notify`
has no such fallback: with a completion webhook configured but no error
webhook, a failed payload produces no JSON webhook dispatch at all. -/
theorem C2_counterexample :
    noErrHookCfg.webhook_url = some "https://hook.example/done" ∧
    jsonWebhookTargets (some noErrHookCfg) Status.failed = [] := ⟨rfl, rfl⟩

/-- C2 (amended): `NotificationService.notify` sends a failed payload
over a JSON webhook only to error_webhook_url, with no fallback to
webhook_url; the AudioProcessor-based worker, which posts webhooks
directly, dispatches on failure exactly one POST to webhook_url when it
is configured (and none otherwise), whose payload carries the job id,
internal id, status "failed", the error message and the metadata, with
no outputs. -/
theorem C2_failure_routing :
    (∀ n : NotificationConfig,
      jsonWebhookTargets (some n) Status.failed = n.error_webhook_url.toList) ∧
    (∀ (jobId : String) (d : JobData) (env : Env) (e : String),
      (runJob jobId d env).outcome = Except.error e →
      (runJob jobId d env).posts =
        (d.webhook_url.map fun u => (u, Payload.failed jobId d.internal_id e d.metadata)).toList) := by
  constructor
  · intro n
    obtain ⟨w, ew, sl, pr⟩ := n
    cases ew <;> cases sl <;> simp [jsonWebhookTargets, notifyDeliveries]
  · intro jobId d env e h
    have hfp : ∀ e' : String, failPosts d jobId e' =
        (d.webhook_url.map fun u => (u, Payload.failed jobId d.internal_id e' d.metadata)).toList := by
      intro e'
      cases hw : d.webhook_url <;> simp [failPosts, hw]
    rcases hdl : env.download with e' | u
    · rw [runJob_dl_err jobId d env e' hdl] at h ⊢
      simp only [Except.error.injEq] at h
      subst h
      exact hfp _
    · rcases hpl : (processLoop env d 0 d.outputs).1 with e' | outs
      · rw [runJob_loop_err jobId d env e' u hdl hpl] at h ⊢
        simp only [Except.error.injEq] at h
        subst h
        exact hfp _
      · rcases hwp : d.waveformPoints with _ | pts
        · rw [runJob_ok_nowave jobId d env outs u hdl hpl hwp] at h
          simp at h
        · rcases hwv : env.wave with e' | raw
          · rw [runJob_wave_err jobId d env outs pts e' u hdl hpl hwp hwv] at h ⊢
            simp only [Except.error.injEq] at h
            subst h
            exact hfp _
          · rw [runJob_ok_wave jobId d env outs pts raw u hdl hpl hwp hwv] at h
            simp at h

/-- C2 (witness): a run whose download fails posts exactly one failed
payload to the configured webhook. -/
theorem C2_witness :
    (runJob "j1" jobDataDemo envDlFail).posts =
      [("https://hook.example/done",
        Payload.failed "j1" (some "int-1") "Failed to download file: Not Found" [("k", "v")])] := by
  have h := C2_failure_routing.2 "j1" jobDataDemo envDlFail
    "Failed to download file: Not Found" (by rfl)
  simpa [jobDataDemo] using h

/-- C3: the claim extends the cleanup guarantee to every revision, but
in the inline worker revision an upload failure is an exit path on which
the already-produced transcoded file is never unlinked: only the input
file is attempted in the catch block. -/
theorem C3_counterexample :
    (runJobW envWUp jobWUp).outcome.isOk = false ∧
    envWUp.transcodeW 0 = Except.ok () ∧
    ("/tmp/wd/output.mp3" ∈ (runJobW envWUp jobWUp).removed → False) := by decide

/-- C3 (amended): in the AudioProcessor-based worker, on every exit path
following a successful download, the cleanup list handed to the finally
block contains the downloaded source and every produced transcoded
intermediate (each element of the loop's file list being the output of a
successful transcode call); the inline worker revision lacks this
guarantee on its upload-failure exit path. -/
theorem C3_cleanup (jobId : String) (d : JobData) (env : Env) (u : Unit)
    (h : env.download = Except.ok u) :
    srcPath jobId env ∈ (runJob jobId d env).cleaned ∧
    (∀ f ∈ (processLoop env d 0 d.outputs).2, f ∈ (runJob jobId d env).cleaned) ∧
    (∀ f ∈ (processLoop env d 0 d.outputs).2, ∃ i', env.transcode i' = Except.ok f) := by
  refine ?_
  have hmem : (runJob jobId d env).cleaned =
      srcPath jobId env :: (processLoop env d 0 d.outputs).2 := by
    rcases hpl : (processLoop env d 0 d.outputs).1 with e | outs
    · rw [runJob_loop_err jobId d env e u h hpl]
    · rcases hwp : d.waveformPoints with _ | pts
      · rw [runJob_ok_nowave jobId d env outs u h hpl hwp]
      · rcases hwv : env.wave with e | raw
        · rw [runJob_wave_err jobId d env outs pts e u h hpl hwp hwv]
        · rw [runJob_ok_wave jobId d env outs pts raw u h hpl hwp hwv]
  rw [hmem]
  refine ⟨List.mem_cons_self _ _, ?_, ?_⟩
  · intro f hf
    exact List.mem_cons_of_mem _ hf
  · intro f hf
    exact processLoop_produced env d d.outputs 0 f hf

/-- C3 (witness): with the transcode of output 2 of 3 forced to fail,
the cleanup list contains the downloaded source and the produced first
intermediate. -/
theorem C3_witness :
    srcPath "j1" envTrFail ∈ (runJob "j1" jobDataTri envTrFail).cleaned ∧
    "/tmp/out0" ∈ (runJob "j1" jobDataTri envTrFail).cleaned := by
  have h := C3_cleanup "j1" jobDataTri envTrFail () (by rfl)
  exact ⟨h.1, h.2.1 "/tmp/out0" (by decide)⟩

/-! Bounds for the fold-based maxima. -/

theorem le_foldl_max (xs : List ℚ) (a : ℚ) : a ≤ xs.foldl max a := by
  induction xs generalizing a with
  | nil => exact le_refl a
  | cons x xs ih => exact le_trans (le_max_left a x) (ih (max a x))

theorem mem_le_foldl_max {xs : List ℚ} {v : ℚ} (h : v ∈ xs) : ∀ a, v ≤ xs.foldl max a := by
  induction h with
  | head as =>
    intro a
    exact le_trans (le_max_right a v) (le_foldl_max as (max a v))
  | tail b hm ih =>
    intro a
    exact ih (max a b)

theorem le_jsMax (l : List ℚ) (v : ℚ) (h : v ∈ l) : v ≤ jsMax l := by
  cases l with
  | nil => cases h
  | cons x xs =>
    rcases List.mem_cons.mp h with rfl | hm
    · exact le_foldl_max xs v
    · exact mem_le_foldl_max hm x

/-- Every lookup into the peak-normalized sample table lies in the unit
interval when the raw samples are nonnegative. -/
theorem getD_div_jsMax (data : List ℚ) (hpos : ∀ v ∈ data, 0 ≤ v) (idx : Nat) :
    0 ≤ (data.map (fun v => v / jsMax data)).getD idx 0 ∧
    (data.map (fun v => v / jsMax data)).getD idx 0 ≤ 1 := by
  by_cases hlt : idx < (data.map (fun v => v / jsMax data)).length
  · rw [List.getD_eq_getElem _ _ hlt]
    have hlen : idx < data.length := by simpa using hlt
    simp only [List.getElem_map]
    have hv : data[idx] ∈ data := List.getElem_mem hlen
    have h0 : 0 ≤ data[idx] := hpos _ hv
    have hm : data[idx] ≤ jsMax data := le_jsMax data _ hv
    rcases eq_or_lt_of_le (le_trans h0 hm) with hz | hpos'
    · have hm0 : data[idx] ≤ 0 := by
        rw [← hz] at hm
        exact hm
      have hv0 : data[idx] = 0 := le_antisymm hm0 h0
      rw [hv0, zero_div]
      norm_num
    · exact ⟨div_nonneg h0 (le_of_lt hpos'), (div_le_one hpos').mpr hm⟩
  · rw [List.getD_eq_default _ _ (le_of_not_lt hlt)]
    norm_num

/-- C1: the claim requires the waveform maximum to be 1.0 whenever a
non-zero raw sample exists, the length to be the achievable maximum, and
the reduction to average windows.  `normalizeWaveform` samples single
strided indices instead and can skip the peak: for raw data 1,4,2,1
reduced to 2 points the result is 1/4,1/2, whose maximum is 1/2, not
1.0, although non-zero samples exist. -/
theorem C1_counterexample :
    normalizeWaveform [1, 4, 2, 1] 2 = [1/4, 1/2] ∧
    jsMax (normalizeWaveform [1, 4, 2, 1] 2) = 1/2 ∧
    (4:ℚ) ∈ ([1, 4, 2, 1] : List ℚ) ∧ (4:ℚ) ≠ 0 ∧ ((1:ℚ)/2) ≠ 1 := by
  have heq : normalizeWaveform [1, 4, 2, 1] 2 = [1/4, 1/2] := by
    have hmax : jsMax [1, 4, 2, 1] = 4 := by norm_num [jsMax, max_def]
    have hrange : List.range 2 = [0, 1] := rfl
    simp only [normalizeWaveform, hmax, hrange, List.map_cons, List.map_nil, List.length_cons,
      List.length_nil, List.length_map]
    norm_num [show Int.toNat 2 = 2 from rfl]
  refine ⟨heq, ?_, by norm_num, by norm_num, by norm_num⟩
  rw [heq]
  norm_num [jsMax, max_def]

/-- C1 (amended): `normalizeWaveform` always returns exactly `points`
values, each one a single peak-normalized raw sample read at the strided
index floor(i*n/points) (no window averaging), all lying in the unit
interval for nonnegative input; the maximum may fall short of 1.0 when
the stride skips the peak sample. -/
theorem C1_waveform (data : List ℚ) (points : Nat) (hpos : ∀ v ∈ data, 0 ≤ v) :
    (normalizeWaveform data points).length = points ∧
    (∀ x ∈ normalizeWaveform data points, 0 ≤ x ∧ x ≤ 1) ∧
    normalizeWaveform data points = (List.range points).map (fun (i : Nat) =>
      (data.map (fun v => v / jsMax data)).getD
        (⌊(i : ℚ) * ((data.length : ℚ) / (points : ℚ))⌋).toNat 0) := by
  refine ⟨by simp only [normalizeWaveform, List.length_map, List.length_range], ?_,
    by simp only [normalizeWaveform, List.length_map]⟩
  intro x hx
  simp only [normalizeWaveform, List.mem_map, List.mem_range] at hx
  obtain ⟨i, hi, rfl⟩ := hx
  exact getD_div_jsMax data hpos _

/-- C1 (witness): the 4-sample run reduced to 2 points has length 2 with
all entries in the unit interval. -/
theorem C1_witness :
    (normalizeWaveform [1, 4, 2, 1] 2).length = 2 ∧
    (∀ x ∈ normalizeWaveform [1, 4, 2, 1] 2, 0 ≤ x ∧ x ≤ 1) :=
  ⟨(C1_waveform [1, 4, 2, 1] 2 (by intro v hv; fin_cases hv <;> norm_num)).1,
   (C1_waveform [1, 4, 2, 1] 2 (by intro v hv; fin_cases hv <;> norm_num)).2.1⟩

/-! Monotonicity facts for the inline worker's progress formula. -/

theorem jsRound_mono {x y : ℚ} (h : x ≤ y) : jsRound x ≤ jsRound y := by
  unfold jsRound
  have hr : round x ≤ round y := by
    rw [round_eq, round_eq]
    exact Int.floor_le_floor (by linarith)
  exact_mod_cast hr

theorem jsRound_twenty : jsRound 20 = 20 := by
  norm_num [jsRound]

theorem progressW_le (k i : Nat) (p : ℚ) : progressW k i p ≤ 80 := min_le_left _ _

theorem progressW_lb (k i : Nat) (p : ℚ) (hp : 0 ≤ p) : 20 ≤ progressW k i p := by
  have hs : (0:ℚ) ≤ 60 / (k:ℚ) := by positivity
  have harg : (20:ℚ) ≤ 20 + (i : ℚ) * (60 / (k:ℚ)) + (p / 100) * (60 / (k:ℚ)) := by
    have h1 : (0:ℚ) ≤ (i : ℚ) * (60 / (k:ℚ)) := by positivity
    have h2 : (0:ℚ) ≤ (p / 100) * (60 / (k:ℚ)) :=
      mul_nonneg (div_nonneg hp (by norm_num)) hs
    linarith
  refine le_min (by norm_num) ?_
  calc (20:ℚ) = jsRound 20 := jsRound_twenty.symm
    _ ≤ _ := jsRound_mono harg

theorem progressW_mono_p (k i : Nat) {p q : ℚ} (h : p ≤ q) :
    progressW k i p ≤ progressW k i q := by
  have hs : (0:ℚ) ≤ 60 / (k:ℚ) := by positivity
  apply min_le_min (le_refl 80)
  apply jsRound_mono
  have hm : p / 100 * (60 / (k:ℚ)) ≤ q / 100 * (60 / (k:ℚ)) :=
    mul_le_mul_of_nonneg_right (by linarith) hs
  linarith

theorem progressW_step (k i : Nat) : progressW k i 100 = progressW k (i + 1) 0 := by
  unfold progressW
  congr 1
  congr 1
  push_cast
  ring

theorem progressW_mono_i (k : Nat) {i i' : Nat} (h : i ≤ i') :
    progressW k i 0 ≤ progressW k i' 0 := by
  have hs : (0:ℚ) ≤ 60 / (k:ℚ) := by positivity
  apply min_le_min (le_refl 80)
  apply jsRound_mono
  have hm : (i:ℚ) * (60 / (k:ℚ)) ≤ (i':ℚ) * (60 / (k:ℚ)) :=
    mul_le_mul_of_nonneg_right (by exact_mod_cast h) hs
  linarith

theorem progressW_zero (k : Nat) : progressW k 0 0 = 20 := by
  have harg : (20:ℚ) + ((0:Nat) : ℚ) * (60 / (k:ℚ)) + ((0:ℚ) / 100) * (60 / (k:ℚ)) = 20 := by
    push_cast
    ring
  unfold progressW
  rw [harg, jsRound_twenty]
  norm_num [min_def]

/-! Shape of the inline worker loop's emitted progress values. -/

theorem loopW_ub (env : EnvW) (j : JobW) (k : Nat) :
    ∀ (specs : List OutputSpec) (i : Nat), ∀ x ∈ (loopW env j k i specs).2.1, x ≤ 80 := by
  intro specs
  induction specs with
  | nil =>
    intro i x hx
    simp [loopW] at hx
  | cons spec rest ih =>
    intro i x hx
    rcases ht : env.transcodeW i with e | uu
    · simp only [loopW, ht] at hx
      obtain ⟨p, hp, rfl⟩ := List.mem_map.mp hx
      exact progressW_le k i p
    · rcases hpr : env.probeW i with e | ds
      · simp only [loopW, ht, hpr] at hx
        obtain ⟨p, hp, rfl⟩ := List.mem_map.mp hx
        exact progressW_le k i p
      · rcases hu : env.uploadW i with e | uu2
        · simp only [loopW, ht, hpr, hu] at hx
          obtain ⟨p, hp, rfl⟩ := List.mem_map.mp hx
          exact progressW_le k i p
        · simp only [loopW, ht, hpr, hu, List.mem_append] at hx
          rcases hx with hx | hx
          · obtain ⟨p, hp, rfl⟩ := List.mem_map.mp hx
            exact progressW_le k i p
          · exact ih (i + 1) x hx

theorem loopW_chain (env : EnvW) (j : JobW) (k : Nat)
    (hp : ∀ (i : Nat), ∀ p ∈ env.percentStreams i, 0 ≤ p ∧ p ≤ 100)
    (hc : ∀ i : Nat, List.Chain' (· ≤ ·) (env.percentStreams i)) :
    ∀ (specs : List OutputSpec) (i : Nat),
      List.Chain' (· ≤ ·) (loopW env j k i specs).2.1 ∧
      ∀ x ∈ (loopW env j k i specs).2.1, progressW k i 0 ≤ x := by
  intro specs
  induction specs with
  | nil =>
    intro i
    constructor
    · simp [loopW]
    · intro x hx
      simp [loopW] at hx
  | cons spec rest ih =>
    intro i
    have hprog_chain : List.Chain' (· ≤ ·) ((env.percentStreams i).map (progressW k i)) := by
      rw [List.chain'_map]
      exact (hc i).imp (fun a b hab => progressW_mono_p k i hab)
    have hprog_lb : ∀ x ∈ (env.percentStreams i).map (progressW k i), progressW k i 0 ≤ x := by
      intro x hx
      obtain ⟨p, hpmem, rfl⟩ := List.mem_map.mp hx
      exact progressW_mono_p k i (hp i p hpmem).1
    have hprog_last : ∀ x ∈ ((env.percentStreams i).map (progressW k i)).getLast?,
        x ≤ progressW k (i + 1) 0 := by
      intro x hx
      have hxmem := List.mem_of_mem_getLast? hx
      obtain ⟨p, hpmem, rfl⟩ := List.mem_map.mp hxmem
      rw [← progressW_step k i]
      exact progressW_mono_p k i (hp i p hpmem).2
    rcases ht : env.transcodeW i with e | uu
    · simp only [loopW, ht]
      exact ⟨hprog_chain, hprog_lb⟩
    · rcases hpr : env.probeW i with e | ds
      · simp only [loopW, ht, hpr]
        exact ⟨hprog_chain, hprog_lb⟩
      · rcases hu : env.uploadW i with e | uu2
        · simp only [loopW, ht, hpr, hu]
          exact ⟨hprog_chain, hprog_lb⟩
        · obtain ⟨hrc, hrlb⟩ := ih (i + 1)
          simp only [loopW, ht, hpr, hu]
          constructor
          · apply List.chain'_append.mpr
            refine ⟨hprog_chain, hrc, ?_⟩
            intro a ha b hb
            have hb' := List.mem_of_mem_head? hb
            have h1 := hprog_last a ha
            have h2 := hrlb b hb'
            linarith
          · intro x hx
            rcases List.mem_append.mp hx with hx | hx
            · exact hprog_lb x hx
            · exact le_trans (progressW_mono_i k (Nat.le_succ i)) (hrlb x hx)

/-- A progress trace of the inline worker: 10 and 20, then values in the
20-80 band, then 100 on success only. -/
theorem chainTrace (mid : List ℚ) (tail : List ℚ)
    (hmid_chain : List.Chain' (· ≤ ·) mid)
    (hmid_lb : ∀ x ∈ mid, 20 ≤ x) (hmid_ub : ∀ x ∈ mid, x ≤ 80)
    (htail : tail = [] ∨ tail = [100]) :
    List.Chain' (· ≤ ·) ([10, 20] ++ mid ++ tail) := by
  have htail_chain : List.Chain' (· ≤ ·) tail := by
    rcases htail with rfl | rfl <;> simp
  have h2 : List.Chain' (· ≤ ·) (mid ++ tail) := by
    apply List.chain'_append.mpr
    refine ⟨hmid_chain, htail_chain, ?_⟩
    intro a ha b hb
    have ha' := List.mem_of_mem_getLast? ha
    have hub := hmid_ub a ha'
    rcases htail with rfl | rfl
    · simp at hb
    · simp at hb
      subst hb
      linarith
  rw [List.append_assoc]
  apply List.chain'_append.mpr
  refine ⟨by norm_num [List.Chain'], h2, ?_⟩
  intro a ha b hb
  have hget : ([10, 20] : List ℚ).getLast? = some 20 := rfl
  rw [hget] at ha
  simp at ha
  subst ha
  have hb' := List.mem_of_mem_head? hb
  rcases List.mem_append.mp hb' with hbm | hbm
  · exact hmid_lb b hbm
  · rcases htail with rfl | rfl
    · simp at hbm
    · simp at hbm
      subst hbm
      norm_num

/-! Scenario equations for `runJobW`, one per exit path. -/

theorem runJobW_dl_err (env : EnvW) (j : JobW) (e : String)
    (h : env.downloadW = Except.error e) :
    runJobW env j = ⟨Except.error e, [10], [env.workDir ++ "/input.audio"]⟩ := by
  simp [runJobW, h]

theorem runJobW_loop_err (env : EnvW) (j : JobW) (e : String) (u : Unit)
    (h1 : env.downloadW = Except.ok u)
    (h2 : (loopW env j j.outputs.length 0 j.outputs).1 = Except.error e) :
    runJobW env j = ⟨Except.error e,
      [10, 20] ++ (loopW env j j.outputs.length 0 j.outputs).2.1,
      (loopW env j j.outputs.length 0 j.outputs).2.2 ++ [env.workDir ++ "/input.audio"]⟩ := by
  simp [runJobW, h1, h2]

theorem runJobW_ok_nowave (env : EnvW) (j : JobW) (outs : List OutputW) (u : Unit)
    (h1 : env.downloadW = Except.ok u)
    (h2 : (loopW env j j.outputs.length 0 j.outputs).1 = Except.ok outs)
    (h3 : j.waveformPoints = none) :
    runJobW env j = ⟨Except.ok (outs, none),
      [10, 20] ++ (loopW env j j.outputs.length 0 j.outputs).2.1 ++ [100],
      (loopW env j j.outputs.length 0 j.outputs).2.2 ++ [env.workDir ++ "/input.audio"]⟩ := by
  simp [runJobW, h1, h2, h3]

theorem runJobW_wave_err (env : EnvW) (j : JobW) (outs : List OutputW) (pts : Nat)
    (e : String) (u : Unit) (h1 : env.downloadW = Except.ok u)
    (h2 : (loopW env j j.outputs.length 0 j.outputs).1 = Except.ok outs)
    (h3 : j.waveformPoints = some pts) (h4 : env.waveRaw = Except.error e) :
    runJobW env j = ⟨Except.error e,
      [10, 20] ++ (loopW env j j.outputs.length 0 j.outputs).2.1,
      (loopW env j j.outputs.length 0 j.outputs).2.2 ++ [env.workDir ++ "/input.audio"]⟩ := by
  simp [runJobW, h1, h2, h3, h4]

theorem runJobW_ok_wave (env : EnvW) (j : JobW) (outs : List OutputW) (pts : Nat)
    (raw : List ℚ) (u : Unit) (h1 : env.downloadW = Except.ok u)
    (h2 : (loopW env j j.outputs.length 0 j.outputs).1 = Except.ok outs)
    (h3 : j.waveformPoints = some pts) (h4 : env.waveRaw = Except.ok raw) :
    runJobW env j = ⟨Except.ok (outs, some
        { data := reduceWaveformW raw (if pts = 0 then 1000 else pts)
          points := (reduceWaveformW raw (if pts = 0 then 1000 else pts)).length }),
      [10, 20] ++ (loopW env j j.outputs.length 0 j.outputs).2.1 ++ [100],
      (loopW env j j.outputs.length 0 j.outputs).2.2 ++ [env.workDir ++ "/input.audio"]⟩ := by
  simp [runJobW, h1, h2, h3, h4]

/-- C8: over one job's lifetime the reported progress values are
non-decreasing, and 100 is reported only on runs that return
successfully.  The AudioProcessor-based worker reports 10, 20, (80,) 100
with 100 only on its success paths; the inline worker revision clamps
its per-output ffmpeg progress values into the 20-80 band, keeps them
ordered whenever ffmpeg's percent stream stays within 0-100 and is
non-decreasing per output, and emits 100 only on its success path. -/
theorem C8_progress :
    (∀ (jobId : String) (d : JobData) (env : Env),
      List.Chain' (· ≤ ·) (runJob jobId d env).progress ∧
      ((100:ℚ) ∈ (runJob jobId d env).progress → (runJob jobId d env).outcome.isOk = true)) ∧
    (∀ (env : EnvW) (j : JobW),
      (∀ i : Nat, ∀ p ∈ env.percentStreams i, 0 ≤ p ∧ p ≤ 100) →
      (∀ i : Nat, List.Chain' (· ≤ ·) (env.percentStreams i)) →
      List.Chain' (· ≤ ·) (runJobW env j).progress) ∧
    (∀ (env : EnvW) (j : JobW),
      (100:ℚ) ∈ (runJobW env j).progress → (runJobW env j).outcome.isOk = true) := by
  refine ⟨?_, ?_, ?_⟩
  · intro jobId d env
    rcases hdl : env.download with e | u
    · rw [runJob_dl_err jobId d env e hdl]
      constructor
      · norm_num [List.Chain']
      · intro hmem
        norm_num at hmem
    · rcases hpl : (processLoop env d 0 d.outputs).1 with e | outs
      · rw [runJob_loop_err jobId d env e u hdl hpl]
        constructor
        · norm_num [List.Chain']
        · intro hmem
          norm_num at hmem
      · rcases hwp : d.waveformPoints with _ | pts
        · rw [runJob_ok_nowave jobId d env outs u hdl hpl hwp]
          exact ⟨by norm_num [List.Chain'], fun _ => rfl⟩
        · rcases hwv : env.wave with e | raw
          · rw [runJob_wave_err jobId d env outs pts e u hdl hpl hwp hwv]
            constructor
            · norm_num [List.Chain']
            · intro hmem
              norm_num at hmem
          · rw [runJob_ok_wave jobId d env outs pts raw u hdl hpl hwp hwv]
            exact ⟨by norm_num [List.Chain'], fun _ => rfl⟩
  · intro env j hp hc
    have hk := loopW_chain env j j.outputs.length hp hc j.outputs 0
    have hub := loopW_ub env j j.outputs.length j.outputs 0
    have hlb : ∀ x ∈ (loopW env j j.outputs.length 0 j.outputs).2.1, (20:ℚ) ≤ x := by
      intro x hx
      have hx' := hk.2 x hx
      rw [progressW_zero] at hx'
      exact hx'
    rcases hdl : env.downloadW with e | u
    · rw [runJobW_dl_err env j e hdl]
      norm_num [List.Chain']
    · rcases hloop : (loopW env j j.outputs.length 0 j.outputs).1 with e | outs
      · rw [runJobW_loop_err env j e u hdl hloop]
        have hct := chainTrace _ [] hk.1 hlb hub (Or.inl rfl)
        simpa using hct
      · rcases hwp : j.waveformPoints with _ | pts
        · rw [runJobW_ok_nowave env j outs u hdl hloop hwp]
          exact chainTrace _ [100] hk.1 hlb hub (Or.inr rfl)
        · rcases hwv : env.waveRaw with e | raw
          · rw [runJobW_wave_err env j outs pts e u hdl hloop hwp hwv]
            have hct := chainTrace _ [] hk.1 hlb hub (Or.inl rfl)
            simpa using hct
          · rw [runJobW_ok_wave env j outs pts raw u hdl hloop hwp hwv]
            exact chainTrace _ [100] hk.1 hlb hub (Or.inr rfl)
  · intro env j hmem
    have hub := loopW_ub env j j.outputs.length j.outputs 0
    rcases hdl : env.downloadW with e | u
    · rw [runJobW_dl_err env j e hdl] at hmem
      norm_num at hmem
    · rcases hloop : (loopW env j j.outputs.length 0 j.outputs).1 with e | outs
      · rw [runJobW_loop_err env j e u hdl hloop] at hmem
        rcases List.mem_append.mp hmem with h | h
        · norm_num at h
        · have h80 := hub _ h
          linarith
      · rcases hwp : j.waveformPoints with _ | pts
        · rw [runJobW_ok_nowave env j outs u hdl hloop hwp]
          rfl
        · rcases hwv : env.waveRaw with e | raw
          · rw [runJobW_wave_err env j outs pts e u hdl hloop hwp hwv] at hmem
            rcases List.mem_append.mp hmem with h | h
            · norm_num at h
            · have h80 := hub _ h
              linarith
          · rw [runJobW_ok_wave env j outs pts raw u hdl hloop hwp hwv]
            rfl

/-- C8 (witness): the all-success inline worker run with percent streams
0, 50, 100 has a non-decreasing progress trace, as does the
AudioProcessor-based demo run. -/
theorem C8_witness :
    List.Chain' (· ≤ ·) (runJobW envWOk jobWOk).progress ∧
    List.Chain' (· ≤ ·) (runJob "j1" jobDataDemo envOk).progress ∧
    (runJob "j1" jobDataDemo envOk).outcome.isOk = true :=
  ⟨C8_progress.2.1 envWOk jobWOk
      (by
        intro i p hp
        have hp' : p ∈ ([0, 50, 100] : List ℚ) := hp
        fin_cases hp' <;> norm_num)
      (by
        intro i
        show List.Chain' (· ≤ ·) ([0, 50, 100] : List ℚ)
        norm_num [List.Chain']),
   (C8_progress.1 "j1" jobDataDemo envOk).1,
   (C8_progress.1 "j1" jobDataDemo envOk).2 (by
      show (100:ℚ) ∈ (runJob "j1" jobDataDemo envOk).progress
      have hpr : (runJob "j1" jobDataDemo envOk).progress = [10, 20, 100] := rfl
      rw [hpr]
      norm_num)⟩

/-! Structure of the inline worker loop's result entries. -/

theorem loopW_ok (env : EnvW) (j : JobW) (k : Nat) :
    ∀ (specs : List OutputSpec) (i : Nat) (outs : List OutputW),
      (loopW env j k i specs).1 = Except.ok outs →
      outs.length = specs.length ∧
      ∀ (jdx : Nat) (hj : jdx < specs.length) (hj' : jdx < outs.length),
        (outs[jdx]).format = (specs[jdx]).format ∧
        (outs[jdx]).quality = (specs[jdx]).quality := by
  intro specs
  induction specs with
  | nil =>
    intro i outs h
    simp only [loopW] at h
    cases h
    exact ⟨rfl, fun jdx hj _ => absurd hj (by simp)⟩
  | cons spec rest ih =>
    intro i outs h
    rcases ht : env.transcodeW i with e | uu
    · simp [loopW, ht] at h
    · rcases hpr : env.probeW i with e | ds
      · simp [loopW, ht, hpr] at h
      · rcases hu : env.uploadW i with e | uu2
        · simp [loopW, ht, hpr, hu] at h
        · simp only [loopW, ht, hpr, hu] at h
          rcases hr : (loopW env j k (i + 1) rest).1 with e | outs'
          · rw [hr] at h
            simp [Except.map] at h
          · rw [hr] at h
            simp only [Except.map, Except.ok.injEq] at h
            subst h
            obtain ⟨hlen, hidx⟩ := ih (i + 1) outs' hr
            refine ⟨by simp [hlen], ?_⟩
            intro jdx hj hj'
            cases jdx with
            | zero => exact ⟨rfl, rfl⟩
            | succ jj =>
              have hjr : jj < rest.length := by simpa using hj
              have hjr' : jj < outs'.length := by omega
              simpa only [List.getElem_cons_succ] using hidx jj hjr hjr'

/-- When the inline worker run returns a value, its entries are exactly
the loop's entries. -/
theorem runJobW_ok_outs (env : EnvW) (j : JobW) (outs : List OutputW)
    (wf : Option WaveformW) (h : (runJobW env j).outcome = Except.ok (outs, wf)) :
    (loopW env j j.outputs.length 0 j.outputs).1 = Except.ok outs := by
  rcases hdl : env.downloadW with e | u
  · rw [runJobW_dl_err env j e hdl] at h
    simp at h
  · rcases hloop : (loopW env j j.outputs.length 0 j.outputs).1 with e | outs'
    · rw [runJobW_loop_err env j e u hdl hloop] at h
      simp at h
    · rcases hwp : j.waveformPoints with _ | pts
      · rw [runJobW_ok_nowave env j outs' u hdl hloop hwp] at h
        simp only [Except.ok.injEq, Prod.mk.injEq] at h
        rw [← h.1]
      · rcases hwv : env.waveRaw with e | raw
        · rw [runJobW_wave_err env j outs' pts e u hdl hloop hwp hwv] at h
          simp at h
        · rw [runJobW_ok_wave env j outs' pts raw u hdl hloop hwp hwv] at h
          simp only [Except.ok.injEq, Prod.mk.injEq] at h
          rw [← h.1]

/-- C5: for every run that returns a result, the result carries exactly
one Output entry per requested OutputSpec, in input order, with the
entry at each position matching its spec's format and quality; this
holds in the AudioProcessor-based worker and in the inline worker
revision alike. -/
theorem C5_outputs :
    (∀ (jobId : String) (d : JobData) (env : Env) (resp : Response),
      (runJob jobId d env).outcome = Except.ok resp →
      resp.outputs.length = d.outputs.length ∧
      ∀ (j : Nat) (hj : j < d.outputs.length) (hj' : j < resp.outputs.length),
        (resp.outputs[j]).format = (d.outputs[j]).format ∧
        (resp.outputs[j]).quality = (d.outputs[j]).quality) ∧
    (∀ (env : EnvW) (j : JobW) (outs : List OutputW) (wf : Option WaveformW),
      (runJobW env j).outcome = Except.ok (outs, wf) →
      outs.length = j.outputs.length ∧
      ∀ (jdx : Nat) (hj : jdx < j.outputs.length) (hj' : jdx < outs.length),
        (outs[jdx]).format = ((j.outputs)[jdx]).format ∧
        (outs[jdx]).quality = ((j.outputs)[jdx]).quality) := by
  constructor
  · intro jobId d env resp h
    have hpl := runJob_ok_outputs jobId d env resp h
    obtain ⟨hlen, hidx⟩ := processLoop_ok env d d.outputs 0 resp.outputs hpl
    refine ⟨hlen, ?_⟩
    intro j hj hj'
    rw [hidx j hj hj']
    exact ⟨rfl, rfl⟩
  · intro env j outs wf h
    exact loopW_ok env j j.outputs.length j.outputs 0 outs (runJobW_ok_outs env j outs wf h)

/-- C5 (witness): the demo jobs with two specs yield two entries with
matching formats and qualities in both worker revisions. -/
theorem C5_witness :
    (respDemo.outputs.length = jobDataDemo.outputs.length ∧
      ∀ (j : Nat) (hj : j < jobDataDemo.outputs.length) (hj' : j < respDemo.outputs.length),
        (respDemo.outputs[j]).format = (jobDataDemo.outputs[j]).format ∧
        (respDemo.outputs[j]).quality = (jobDataDemo.outputs[j]).quality) ∧
    (outsWDemo.length = jobWOk.outputs.length ∧
      ∀ (jdx : Nat) (hj : jdx < jobWOk.outputs.length) (hj' : jdx < outsWDemo.length),
        (outsWDemo[jdx]).format = ((jobWOk.outputs)[jdx]).format ∧
        (outsWDemo[jdx]).quality = ((jobWOk.outputs)[jdx]).quality) :=
  ⟨C5_outputs.1 "j1" jobDataDemo envOk respDemo (by rfl),
   C5_outputs.2 envWOk jobWOk outsWDemo none (by rfl)⟩

end Soundwave
